import Mathlib

/-!
Verification of the currency-swap form's core logic.

Shallow embedding of the price-catalog construction and conversion arithmetic of
`src/problem2/CurrencySwapForm/src/Components/SwapForm.tsx`:

* `removeDuplicates` (lines 45-58): first-wins deduplication keyed by the string
  `currency + "-" + date` in an insertion-ordered map;
* the processing loop of `fetchPrices` (lines 74-87): builds the `priceMap`
  (rate table) and the `availableCurrencies` (currency metadata) list, icon
  name resolution through `mapIncorrectObj` (lines 17-25);
* `handleInputChange` (lines 102-128): the conversion computation and its
  update policy over the form state.

Host numbers are modelled as exact rationals (`ℚ`); a non-finite value (`NaN`;
also the `±Infinity` results of dividing by zero, which are produced only in
branches discarded by the update guard) is modelled as `none` of `Option ℚ`.
-/

namespace SwapForm

/-- A JS number in the positions where `NaN` can flow: `none` is non-finite. -/
abbrev JSNum := Option ℚ

/-- JS multiplication on possibly-non-finite operands: `NaN` propagates. -/
def jsMul : JSNum → JSNum → JSNum
  | some a, some b => some (a * b)
  | _, _ => none

/-- JS division as used by the form: a finite quotient for a nonzero finite
divisor; every other case (`NaN`/`undefined` operand, zero divisor) is
non-finite. -/
def jsDiv : JSNum → JSNum → JSNum
  | some a, some b => if b = 0 then none else some (a / b)
  | _, _ => none

/-- JS truthiness of a number-or-`undefined`: `undefined`, `0` and `NaN` are
falsy, every other number is truthy. -/
def jsTruthy : JSNum → Bool
  | some a => a != 0
  | none => false

/-- Modelled from the spec: the host environment's float parser (`parseFloat`),
which is not part of the repository: "parse leading numeric prefix, ignore
trailing non-numeric characters, fail to `NaN` if no numeric prefix exists".
Leading whitespace, an optional sign and an optional fractional part are
accepted; `none` models `NaN`.  (Exponent notation is not modelled; no claim
depends on it.) -/
def parseFloatJ (s : String) : JSNum :=
  let cs := s.toList.dropWhile Char.isWhitespace
  let signed : ℚ × List Char :=
    match cs with
    | '-' :: t => (-1, t)
    | '+' :: t => (1, t)
    | _ => (1, cs)
  let ds1 := signed.2.takeWhile Char.isDigit
  let rest := signed.2.dropWhile Char.isDigit
  let ds2 :=
    match rest with
    | '.' :: t => t.takeWhile Char.isDigit
    | _ => []
  if ds1.isEmpty && ds2.isEmpty then none
  else
    let digitsVal : ℕ := (ds1 ++ ds2).foldl (fun n c => 10 * n + (c.toNat - 48)) 0
    some (signed.1 * ((digitsVal : ℚ) / (10 : ℚ) ^ ds2.length))

/-- Model of `Number.prototype.toFixed(6)`: round the absolute value half-up at the 6th
fractional digit and render with exactly 6 digits after the decimal point,
prefixing `-` for a negative input.  (`b.num / b.den` is the floor of the
nonnegative rational `b`.) -/
def toFixed6 (q : ℚ) : String :=
  let a : ℚ := if q < 0 then -q else q
  let b : ℚ := a * 1000000 + 1 / 2
  let n : ℕ := (b.num / (b.den : ℤ)).toNat
  let ip : ℕ := n / 1000000
  let fp : ℕ := n % 1000000
  (if q < 0 then "-" else "") ++ Nat.repr ip ++ "." ++ (Nat.repr (1000000 + fp)).drop 1

/-- Total `toFixed(6)` on a possibly-non-finite value; `NaN.toFixed(6)` is `"NaN"`. -/
def toFixedJ : JSNum → String
  | some q => toFixed6 q
  | none => "NaN"

/-- One raw price observation (`CurrenciesModel`, lines 27-32).  `price` is
optional in the source; `date` is present on every observation of the feed. -/
structure CurrenciesModel where
  currency : String
  date : String
  price : Option ℚ
deriving DecidableEq

/-- The deduplication key `` `${item.currency}-${item.date}` `` (line 50). -/
def obsKey (o : CurrenciesModel) : String := o.currency ++ "-" ++ o.date

/-- The `uniqueMap` walk of `removeDuplicates` (lines 49-54): a JS `Map` keeps
the first value inserted per key and iterates in key-insertion order, so the
result is the input with every observation whose key was already seen dropped. -/
def dedupAux (seen : List String) : List CurrenciesModel → List CurrenciesModel
  | [] => []
  | o :: t =>
    if obsKey o ∈ seen then dedupAux seen t
    else o :: dedupAux (obsKey o :: seen) t

/-- Source `removeDuplicates` (lines 45-58). -/
def removeDuplicates (data : List CurrenciesModel) : List CurrenciesModel :=
  dedupAux [] data

/-- A JS string-keyed object holding values of type `α`. -/
abbrev JSObj (α : Type) := List (String × α)

/-- JS object property read `obj[c]`; `none` models `undefined`. -/
def objLookup {α : Type} : JSObj α → String → Option α
  | [], _ => none
  | (k, v) :: t, c => if c = k then some v else objLookup t c

/-- JS object property write `obj[c] = p`: overwrite the existing property in
place, or append a new one. -/
def setRate {α : Type} : JSObj α → String → α → JSObj α
  | [], c, p => [(c, p)]
  | (k, v) :: t, c, p => if c = k then (k, p) :: t else (k, v) :: setRate t c p

/-- The `priceMap` built by `fetchPrices`: currency symbol to rate. -/
abbrev RateTable := JSObj ℚ

/-- Source `mapIncorrectObj` (lines 17-25): display ticker to icon-file casing. -/
def mapIncorrectObj : JSObj String :=
  [("STEVMOS", "stEVMos"), ("RATOM", "rATOM"), ("STOSMO", "stOSMO"),
   ("STATOM", "stATOM"), ("STLUNA", "stLUNA")]

/-- Icon name resolution (lines 77-81): the override table's entry when the
currency is one of its keys, the currency symbol unchanged otherwise. -/
def resolveIcon (c : String) : String :=
  match objLookup mapIncorrectObj c with
  | some n => n
  | none => c

/-- The icon repository base URL (line 84). -/
def tokenIconsBase : String :=
  "https://raw.githubusercontent.com/Switcheo/token-icons/main/tokens/"

/-- The `iconUrl` built for a currency (line 84). -/
def iconUrlOf (c : String) : String := tokenIconsBase ++ resolveIcon c ++ ".svg"

/-- One entry of `availableCurrencies` (lines 82-85). -/
structure CurrencyMeta where
  currency : String
  iconUrl : String
deriving DecidableEq

/-- The `if (item.price)` truthiness test (line 75): the price is present and
nonzero.  (A JSON price is never `NaN`; in the `ℚ` model non-finite prices do
not arise.) -/
def obsValid (o : CurrenciesModel) : Bool :=
  match o.price with
  | some p => p != 0
  | none => false

/-- The body of the `newMockData.forEach` loop (lines 74-87): for an
observation with truthy price, assign `priceMap[item.currency] =
parseFloat(item.price)` (the identity on an already-numeric price) and push
`{currency, iconUrl}` onto `availableCurrencies`; otherwise do nothing. -/
def fetchStep (acc : RateTable × List CurrencyMeta) (o : CurrenciesModel) :
    RateTable × List CurrencyMeta :=
  match o.price with
  | some p =>
    if p = 0 then acc
    else (setRate acc.1 o.currency p, acc.2 ++ [⟨o.currency, iconUrlOf o.currency⟩])
  | none => acc

/-- The pure processing of `fetchPrices` (lines 61-97) applied to the decoded
response body: deduplicate, then fold the loop body over the deduplicated
sequence starting from an empty `priceMap` and empty `availableCurrencies`.
The network fetch itself is an external collaborator and not modelled. -/
def fetchPrices (data : List CurrenciesModel) : RateTable × List CurrencyMeta :=
  (removeDuplicates data).foldl fetchStep ([], [])

/-- The spec's `ConversionRequest`: the three form fields read by the
conversion (line 111).  The currency fields are `string | undefined`. -/
structure ConversionRequest where
  fromCurrency : Option String
  toCurrency : Option String
  fromAmount : String
deriving DecidableEq

/-- JS truthiness of a string-or-`undefined` value: `undefined` and `""` are
falsy. -/
def strOptTruthy : Option String → Bool
  | some s => s != ""
  | none => false

/-- The candidate result computed on lines 114-118: `fromRate =
prices[fromCurrency] || 0`, `toRate = prices[toCurrency]`, `amountInUSD =
parseFloat(fromAmount) * fromRate`, `result = (amountInUSD / toRate).toFixed(6)`. -/
def candidate (rates : RateTable) (req : ConversionRequest) : String :=
  let fromRate : ℚ := (objLookup rates (req.fromCurrency.getD "")).getD 0
  let toRate : Option ℚ := objLookup rates (req.toCurrency.getD "")
  let amountInUSD : JSNum := jsMul (parseFloatJ req.fromAmount) (some fromRate)
  toFixedJ (jsDiv amountInUSD toRate)

/-- The inner update guard `if (fromRate && toRate && fromAmount)` (line 120). -/
def updCond (rates : RateTable) (req : ConversionRequest) : Bool :=
  ((objLookup rates (req.fromCurrency.getD "")).getD 0 != 0)
    && jsTruthy (objLookup rates (req.toCurrency.getD ""))
    && (req.fromAmount != "")

/-- Both guards of lines 113 and 120 combined: the update fires exactly when
`fromCurrency && toCurrency` and `fromRate && toRate && fromAmount` hold. -/
def updateFires (rates : RateTable) (req : ConversionRequest) : Bool :=
  strOptTruthy req.fromCurrency && strOptTruthy req.toCurrency && updCond rates req

/-- The spec's `ConversionEngine.convert`: lines 113-125 of
`handleInputChange` as a function of the rate table, the request read from the
new form state, and the previous displayed result (`toAmount`).  Under the
outer guard `if (fromCurrency && toCurrency)` the candidate is computed and,
when `fromRate && toRate && fromAmount`, replaces the result; otherwise the
previous result stands. -/
def convert (rates : RateTable) (req : ConversionRequest) (previousResult : String) :
    String :=
  if strOptTruthy req.fromCurrency && strOptTruthy req.toCurrency then
    if updCond rates req then candidate rates req else previousResult
  else previousResult

/-- The form state (lines 38-43). -/
structure FormData where
  fromCurrency : Option String
  toCurrency : Option String
  fromAmount : String
  toAmount : String
deriving DecidableEq

/-- The `(field, value)` argument pairs with which the source calls
`handleInputChange` (lines 157, 182, 193): the two `Select`s supply a
`string | undefined` for the currency fields, the `Input` a string for
`fromAmount`.  `toAmount` is a disabled input and never edited directly. -/
inductive FieldUpdate where
  | updFromCurrency (v : Option String)
  | updToCurrency (v : Option String)
  | updFromAmount (v : String)

/-- The spread `{ ...formData, [field]: value }` (line 103). -/
def applyField (fd : FormData) : FieldUpdate → FormData
  | .updFromCurrency v => { fd with fromCurrency := v }
  | .updToCurrency v => { fd with toCurrency := v }
  | .updFromAmount v => { fd with fromAmount := v }

/-- The conversion request destructured from a form state (line 111). -/
def requestOf (fd : FormData) : ConversionRequest :=
  ⟨fd.fromCurrency, fd.toCurrency, fd.fromAmount⟩

/-- Source `handleInputChange` (lines 102-128) as a state transformer: write the
edited field, then (all three editable fields are in the triggering set of
line 106) run the conversion of lines 113-125; the functional
`setFormData((prev) => ...)` on line 121 receives the just-queued new form
state, so the net effect is to replace `toAmount` with the conversion's
result, which `convert` leaves at its previous value when a guard fails. -/
def handleInputChange (prices : RateTable) (fd : FormData) (u : FieldUpdate) :
    FormData :=
  let n := applyField fd u
  { n with toAmount := convert prices (requestOf n) n.toAmount }

/-- The claims' reading of "`fromRate` is truthy": `fromCurrency` is a present
key of the rate table with a nonzero rate. -/
def fromRateTruthyB (rates : RateTable) (req : ConversionRequest) : Bool :=
  match req.fromCurrency with
  | some fc => jsTruthy (objLookup rates fc)
  | none => false

/-- The claims' reading of "`toRate` is truthy": `toCurrency` is a present key
of the rate table with a nonzero rate. -/
def toRateTruthyB (rates : RateTable) (req : ConversionRequest) : Bool :=
  match req.toCurrency with
  | some tc => jsTruthy (objLookup rates tc)
  | none => false

/-- Modelled from the spec: deduplication keyed by the (currency, date) PAIR,
as the spec's invariant words it ("deduplication key is the pair (currency,
date)"), for comparison with the source's string-keyed `removeDuplicates`. -/
def dedupPairAux (seen : List (String × String)) :
    List CurrenciesModel → List CurrenciesModel
  | [] => []
  | o :: t =>
    if (o.currency, o.date) ∈ seen then dedupPairAux seen t
    else o :: dedupPairAux ((o.currency, o.date) :: seen) t

/-- Modelled from the spec: pair-keyed first-wins deduplication. -/
def dedupByPair (data : List CurrenciesModel) : List CurrenciesModel :=
  dedupPairAux [] data

/-- Last-write-wins rate selection: the price of the last observation in the
list with the given currency and a truthy price, else the starting value.
This is the transparent description of what the overwriting `priceMap`
assignments compute. -/
def lastRateAux (r : Option ℚ) : List CurrenciesModel → String → Option ℚ
  | [], _ => r
  | o :: t, c =>
    lastRateAux (if o.currency = c ∧ obsValid o = true then o.price else r) t c

end SwapForm


namespace SwapForm

/-! ## General lemmas about the embedded operations -/

theorem objLookup_setRate {α : Type} (m : JSObj α) (c : String) (p : α) (x : String) :
    objLookup (setRate m c p) x = if x = c then some p else objLookup m x := by
  induction m with
  | nil =>
    by_cases h : x = c <;> simp [setRate, objLookup, h]
  | cons e t ih =>
    obtain ⟨k, v⟩ := e
    by_cases hck : c = k
    · subst hck
      by_cases hx : x = c <;> simp_all [setRate, objLookup]
    · by_cases hx : x = k
      · subst hx
        simp_all [setRate, objLookup, Ne.symm hck]
      · simp_all [setRate, objLookup]

theorem convert_eq_ite (rates : RateTable) (req : ConversionRequest) (prev : String) :
    convert rates req prev =
      if updateFires rates req = true then candidate rates req else prev := by
  unfold convert updateFires
  cases hA : strOptTruthy req.fromCurrency <;>
    cases hB : strOptTruthy req.toCurrency <;>
      cases hC : updCond rates req <;> simp [hA, hB, hC]

theorem lastRateAux_cons (r : Option ℚ) (o : CurrenciesModel)
    (t : List CurrenciesModel) (c : String) :
    lastRateAux r (o :: t) c =
      lastRateAux (if o.currency = c ∧ obsValid o = true then o.price else r) t c := rfl

theorem foldl_fetchStep_fst (l : List CurrenciesModel) :
    ∀ (acc : RateTable × List CurrencyMeta) (c : String),
      objLookup (l.foldl fetchStep acc).1 c = lastRateAux (objLookup acc.1 c) l c := by
  induction l with
  | nil => intro acc c; rfl
  | cons o t ih =>
    intro acc c
    rw [List.foldl_cons, ih, lastRateAux_cons]
    congr 1
    cases hp : o.price with
    | none => simp [fetchStep, obsValid, hp]
    | some p =>
      by_cases hz : p = 0
      · subst hz; simp [fetchStep, obsValid, hp]
      · simp only [fetchStep, obsValid, hp, hz, if_false, bne_iff_ne, ne_eq,
          not_false_eq_true, and_true, objLookup_setRate]
        by_cases hc : c = o.currency
        · subst hc; simp
        · rw [if_neg hc, if_neg (fun h : o.currency = c => hc h.symm)]

theorem foldl_fetchStep_snd (l : List CurrenciesModel) :
    ∀ (acc : RateTable × List CurrencyMeta),
      (l.foldl fetchStep acc).2 =
        acc.2 ++ (l.filter (fun o => obsValid o)).map
          (fun o => ⟨o.currency, iconUrlOf o.currency⟩) := by
  induction l with
  | nil => intro acc; simp
  | cons o t ih =>
    intro acc
    rw [List.foldl_cons, ih]
    cases hp : o.price with
    | none => simp [fetchStep, List.filter, obsValid, hp]
    | some p =>
      by_cases hz : p = 0
      · subst hz; simp [fetchStep, List.filter, obsValid, hp]
      · have hb : (p != 0) = true := by simpa using hz
        simp [fetchStep, List.filter, obsValid, hp, hz, hb]

theorem obsValid_price {o : CurrenciesModel} (h : obsValid o = true) :
    ∃ p, o.price = some p ∧ p ≠ 0 := by
  unfold obsValid at h
  cases hp : o.price with
  | none => rw [hp] at h; exact absurd h (by simp)
  | some p =>
    rw [hp] at h
    exact ⟨p, rfl, by simpa using h⟩

theorem lastRateAux_ne_zero (l : List CurrenciesModel) :
    ∀ (r : Option ℚ) (c : String), (∀ p, r = some p → p ≠ 0) →
      ∀ p, lastRateAux r l c = some p → p ≠ 0 := by
  induction l with
  | nil => intro r c hr p hp; exact hr p hp
  | cons o t ih =>
    intro r c hr p hp
    rw [lastRateAux_cons] at hp
    refine ih _ c ?_ p hp
    by_cases h : o.currency = c ∧ obsValid o = true
    · rw [if_pos h]
      obtain ⟨q, hq, hq0⟩ := obsValid_price h.2
      intro x hx
      rw [hq] at hx
      cases hx
      exact hq0
    · rw [if_neg h]; exact hr

theorem lastRateAux_ne_none_iff (l : List CurrenciesModel) :
    ∀ (r : Option ℚ) (c : String),
      lastRateAux r l c ≠ none ↔
        (∃ o, o ∈ l ∧ o.currency = c ∧ obsValid o = true) ∨ r ≠ none := by
  induction l with
  | nil =>
    intro r c
    simp [lastRateAux]
  | cons o t ih =>
    intro r c
    rw [lastRateAux_cons, ih]
    by_cases h : o.currency = c ∧ obsValid o = true
    · rw [if_pos h]
      obtain ⟨q, hq, _⟩ := obsValid_price h.2
      simp only [List.mem_cons]
      constructor
      · intro _; exact Or.inl ⟨o, Or.inl rfl, h⟩
      · intro _; rw [hq]; exact Or.inr (by simp)
    · rw [if_neg h]
      simp only [List.mem_cons]
      constructor
      · rintro (⟨x, hx, hxc⟩ | hr)
        · exact Or.inl ⟨x, Or.inr hx, hxc⟩
        · exact Or.inr hr
      · rintro (⟨x, hx | hx, hxc⟩ | hr)
        · subst hx; exact absurd hxc h
        · exact Or.inl ⟨x, hx, hxc⟩
        · exact Or.inr hr

end SwapForm

namespace SwapForm

theorem obsKey_eq_of_pair {o1 o2 : CurrenciesModel}
    (hc : o1.currency = o2.currency) (hd : o1.date = o2.date) :
    obsKey o1 = obsKey o2 := by
  unfold obsKey; rw [hc, hd]

theorem dedupAux_cons (seen : List String) (o : CurrenciesModel)
    (t : List CurrenciesModel) :
    dedupAux seen (o :: t) =
      if obsKey o ∈ seen then dedupAux seen t
      else o :: dedupAux (obsKey o :: seen) t := rfl

theorem dedupPairAux_cons (seen : List (String × String)) (o : CurrenciesModel)
    (t : List CurrenciesModel) :
    dedupPairAux seen (o :: t) =
      if (o.currency, o.date) ∈ seen then dedupPairAux seen t
      else o :: dedupPairAux ((o.currency, o.date) :: seen) t := rfl

theorem dedupAux_eq_dedupPairAux (t : List CurrenciesModel) :
    ∀ (seenK : List String) (seenP : List (String × String)),
      (∀ o, o ∈ t → (obsKey o ∈ seenK ↔ (o.currency, o.date) ∈ seenP)) →
      (∀ o1, o1 ∈ t → ∀ o2, o2 ∈ t → obsKey o1 = obsKey o2 →
        o1.currency = o2.currency ∧ o1.date = o2.date) →
      dedupAux seenK t = dedupPairAux seenP t := by
  induction t with
  | nil => intro seenK seenP h1 h2; rfl
  | cons o t ih =>
    intro seenK seenP hseen hnc
    have hiff := hseen o (List.mem_cons_self o t)
    rw [dedupAux_cons, dedupPairAux_cons]
    by_cases hmem : obsKey o ∈ seenK
    · rw [if_pos hmem, if_pos (hiff.mp hmem)]
      exact ih seenK seenP
        (fun x hx => hseen x (List.mem_cons_of_mem o hx))
        (fun x hx y hy => hnc x (List.mem_cons_of_mem o hx) y (List.mem_cons_of_mem o hy))
    · rw [if_neg hmem, if_neg (fun h => hmem (hiff.mpr h))]
      refine congrArg (o :: ·) (ih _ _ ?_ ?_)
      · intro x hx
        simp only [List.mem_cons]
        constructor
        · rintro (hk | hk)
          · left
            have h12 := hnc x (List.mem_cons_of_mem o hx) o (List.mem_cons_self o t) hk
            rw [h12.1, h12.2]
          · right; exact (hseen x (List.mem_cons_of_mem o hx)).mp hk
        · rintro (hp | hp)
          · left
            rw [Prod.mk.injEq] at hp
            exact obsKey_eq_of_pair hp.1 hp.2
          · right; exact (hseen x (List.mem_cons_of_mem o hx)).mpr hp
      · intro x hx y hy
        exact hnc x (List.mem_cons_of_mem o hx) y (List.mem_cons_of_mem o hy)

theorem getD_zero_bne (r : Option ℚ) : ((r.getD 0) != 0) = jsTruthy r := by
  cases r <;> simp [jsTruthy]

theorem updateFires_eq (rates : RateTable) (req : ConversionRequest) :
    updateFires rates req =
      (strOptTruthy req.fromCurrency && strOptTruthy req.toCurrency
        && fromRateTruthyB rates req && toRateTruthyB rates req
        && (req.fromAmount != "")) := by
  unfold updateFires updCond fromRateTruthyB toRateTruthyB
  cases hf : req.fromCurrency with
  | none => simp [strOptTruthy]
  | some fc =>
    cases ht : req.toCurrency with
    | none => simp [strOptTruthy]
    | some tc =>
      simp only [Option.getD_some, getD_zero_bne]
      cases strOptTruthy (some fc) <;> cases strOptTruthy (some tc) <;>
        cases jsTruthy (objLookup rates fc) <;> cases jsTruthy (objLookup rates tc) <;>
          cases req.fromAmount != "" <;> rfl

end SwapForm

namespace SwapForm

/-! ## Claim theorems -/

-- Batteries marks the `Rat` field operations `@[irreducible]`, which blocks
-- `decide` on concrete conversion arithmetic; restore their default
-- reducibility for the concrete evaluations below.
attribute [local semireducible] Rat.mul Rat.inv Rat.add Rat.sub

/-- C1 (counterexample): the three conditions as the claim words them —
`fromCurrency` present in the rate table with a nonzero rate, likewise
`toCurrency`, and a non-empty `fromAmount` — all hold here, yet `convert`
returns the previous result unchanged rather than the candidate, because the
empty-string `fromCurrency` fails the outer `if (fromCurrency && toCurrency)`
guard of line 113. -/
theorem c1_counterexample :
    fromRateTruthyB [("", 2), ("B", 4)] ⟨some "", some "B", "1"⟩ = true ∧
    toRateTruthyB [("", 2), ("B", 4)] ⟨some "", some "B", "1"⟩ = true ∧
    (⟨some "", some "B", "1"⟩ : ConversionRequest).fromAmount ≠ "" ∧
    convert [("", 2), ("B", 4)] ⟨some "", some "B", "1"⟩ "prev" = "prev" ∧
    candidate [("", 2), ("B", 4)] ⟨some "", some "B", "1"⟩ ≠ "prev" := by
  refine ⟨by decide, by decide, by decide, by decide, by decide⟩

/-- C1 (amended): `convert` replaces the previous result with the candidate
exactly when the selected currency options are truthy (defined, non-empty —
the outer guard of line 113) and, in the claim's sense, `fromRate` is truthy,
`toRate` is truthy and the raw `fromAmount` string is non-empty; in every
other case the previous result is returned unchanged. -/
theorem c1_update_policy (rates : RateTable) (req : ConversionRequest)
    (prev : String) :
    convert rates req prev =
      if (strOptTruthy req.fromCurrency && strOptTruthy req.toCurrency
          && fromRateTruthyB rates req && toRateTruthyB rates req
          && (req.fromAmount != "")) = true
      then candidate rates req else prev := by
  rw [convert_eq_ite, updateFires_eq]

/-- C2: whenever the code's `fromRate` and `toRate` variables (resolved under
the currency-selected guard of line 113) and the raw `fromAmount` string are
all truthy, `convert` returns `parseFloat(fromAmount) * fromRate / toRate`
formatted by `toFixed(6)`; in particular rate table `{A: 2, B: 4}` with
request `{from: "A", to: "B", amount: "10"}` yields `"5.000000"`. -/
theorem c2_conversion_formula :
    (∀ (rates : RateTable) (req : ConversionRequest) (prev : String),
      strOptTruthy req.fromCurrency = true →
      strOptTruthy req.toCurrency = true →
      ((objLookup rates (req.fromCurrency.getD "")).getD 0 != 0) = true →
      jsTruthy (objLookup rates (req.toCurrency.getD "")) = true →
      (req.fromAmount != "") = true →
      convert rates req prev =
        toFixedJ (jsDiv
          (jsMul (parseFloatJ req.fromAmount)
            (some ((objLookup rates (req.fromCurrency.getD "")).getD 0)))
          (objLookup rates (req.toCurrency.getD "")))) ∧
    (∀ prev, convert [("A", 2), ("B", 4)] ⟨some "A", some "B", "10"⟩ prev
      = "5.000000") := by
  constructor
  · intro rates req prev h1 h2 h3 h4 h5
    unfold convert updCond candidate
    rw [h1, h2, h3, h4, h5]
    rfl
  · intro prev
    have h : updateFires [("A", 2), ("B", 4)] ⟨some "A", some "B", "10"⟩ = true := by
      decide
    rw [convert_eq_ite, if_pos h]
    decide

/-- C2 (witness): the general formula applied at the concrete rate table
`{A: 2, B: 4}` and request `{from: "A", to: "B", amount: "10"}`. -/
theorem c2_witness :
    strOptTruthy (some "A") = true ∧
    convert [("A", 2), ("B", 4)] ⟨some "A", some "B", "10"⟩ "p" =
      toFixedJ (jsDiv
        (jsMul (parseFloatJ "10")
          (some ((objLookup [("A", 2), ("B", 4)] ((some "A" : Option String).getD "")).getD 0)))
        (objLookup [("A", 2), ("B", 4)] ((some "B" : Option String).getD ""))) :=
  ⟨by decide, c2_conversion_formula.1 [("A", 2), ("B", 4)] ⟨some "A", some "B", "10"⟩ "p"
    (by decide) (by decide) (by decide) (by decide) (by decide)⟩

/-- C3 (counterexample): currency `A` appears under the two distinct dates
`d1` and `d2` with valid prices `1` and `5`; both observations survive
deduplication, and the rate table entry for `A` is `5` — the price of the
LAST observation, not the first as the claim states: each
`priceMap[item.currency] = ...` assignment overwrites the previous one. -/
theorem c3_counterexample :
    removeDuplicates [⟨"A", "d1", some 1⟩, ⟨"A", "d2", some 5⟩] =
      [⟨"A", "d1", some 1⟩, ⟨"A", "d2", some 5⟩] ∧
    objLookup (fetchPrices [⟨"A", "d1", some 1⟩, ⟨"A", "d2", some 5⟩]).1 "A" = some 5 ∧
    objLookup (fetchPrices [⟨"A", "d1", some 1⟩, ⟨"A", "d2", some 5⟩]).1 "A" ≠ some 1 := by
  refine ⟨by decide, by decide, by decide⟩

/-- C3 (amended): when the same currency appears under multiple distinct dates
with valid prices in the deduplicated sequence, the LAST such observation's
price wins — the rate table entry for any currency is the price of the last
deduplicated observation with that currency and a truthy price. -/
theorem c3_last_observation_wins :
    (∀ (data : List CurrenciesModel) (c : String),
      objLookup (fetchPrices data).1 c = lastRateAux none (removeDuplicates data) c) ∧
    objLookup (fetchPrices [⟨"A", "d1", some 1⟩, ⟨"A", "d2", some 5⟩]).1 "A" = some 5 := by
  constructor
  · intro data c
    unfold fetchPrices
    rw [foldl_fetchStep_fst]
    rfl
  · decide

end SwapForm

namespace SwapForm

attribute [local semireducible] Rat.mul Rat.inv Rat.add Rat.sub

/-- C4 (counterexample): the deduplication key is the concatenated string
`currency + "-" + date`, not the (currency, date) pair: these two
observations have distinct (currency, date) pairs yet the same key
`"A-B-C"`, so `removeDuplicates` drops the second while deduplication by the
pair keeps both. -/
theorem c4_counterexample :
    obsKey ⟨"A-B", "C", some 1⟩ = obsKey ⟨"A", "B-C", some 2⟩ ∧
    ((⟨"A-B", "C", some 1⟩ : CurrenciesModel).currency,
        (⟨"A-B", "C", some 1⟩ : CurrenciesModel).date) ≠
      ((⟨"A", "B-C", some 2⟩ : CurrenciesModel).currency,
        (⟨"A", "B-C", some 2⟩ : CurrenciesModel).date) ∧
    removeDuplicates [⟨"A-B", "C", some 1⟩, ⟨"A", "B-C", some 2⟩] =
      [⟨"A-B", "C", some 1⟩] ∧
    dedupByPair [⟨"A-B", "C", some 1⟩, ⟨"A", "B-C", some 2⟩] =
      [⟨"A-B", "C", some 1⟩, ⟨"A", "B-C", some 2⟩] := by
  refine ⟨by decide, by decide, by decide, by decide⟩

/-- C4 (amended): deduplication is first-wins on the string key
`currency + "-" + date`; on every input whose key-equal observations agree
on both currency and date (no separator collisions) this coincides with
first-wins deduplication by the (currency, date) pair, and the claim's
example yields the rate table `{A: 1, B: 2}` with the second `A`/`d1`
observation silently discarded. -/
theorem c4_first_wins_dedup :
    (∀ (data : List CurrenciesModel),
      (∀ o1, o1 ∈ data → ∀ o2, o2 ∈ data → obsKey o1 = obsKey o2 →
        o1.currency = o2.currency ∧ o1.date = o2.date) →
      removeDuplicates data = dedupByPair data) ∧
    objLookup (fetchPrices
      [⟨"A", "d1", some 1⟩, ⟨"A", "d1", some 99⟩, ⟨"B", "d1", some 2⟩]).1 "A"
      = some 1 ∧
    objLookup (fetchPrices
      [⟨"A", "d1", some 1⟩, ⟨"A", "d1", some 99⟩, ⟨"B", "d1", some 2⟩]).1 "B"
      = some 2 := by
  refine ⟨?_, by decide, by decide⟩
  intro data hnc
  exact dedupAux_eq_dedupPairAux data [] [] (by simp) hnc

/-- C4 (witness): the collision-freeness hypothesis holds at the claim's
example list, on which the string-keyed and pair-keyed deduplications agree. -/
theorem c4_witness :
    (∀ o1, o1 ∈ ([⟨"A", "d1", some 1⟩, ⟨"A", "d1", some 99⟩, ⟨"B", "d1", some 2⟩] :
        List CurrenciesModel) →
      ∀ o2, o2 ∈ ([⟨"A", "d1", some 1⟩, ⟨"A", "d1", some 99⟩, ⟨"B", "d1", some 2⟩] :
        List CurrenciesModel) →
      obsKey o1 = obsKey o2 → o1.currency = o2.currency ∧ o1.date = o2.date) ∧
    removeDuplicates [⟨"A", "d1", some 1⟩, ⟨"A", "d1", some 99⟩, ⟨"B", "d1", some 2⟩] =
      dedupByPair [⟨"A", "d1", some 1⟩, ⟨"A", "d1", some 99⟩, ⟨"B", "d1", some 2⟩] :=
  ⟨by decide, c4_first_wins_dedup.1 _ (by decide)⟩

/-- C5 (counterexample): a negative price passes the `if (item.price)`
truthiness check of line 75 unchanged, so the rate table can hold a negative
— not positive — rate. -/
theorem c5_counterexample :
    objLookup (fetchPrices [⟨"A", "d1", some (-3)⟩]).1 "A" = some (-3) ∧
    ¬ (0 < (-3 : ℚ)) := by
  refine ⟨by decide, by decide⟩

/-- C5 (amended): every rate stored in the table is NONZERO — observations
with an absent or zero price contribute no entry — but negative prices are
admitted, so the stored rates need not be positive. -/
theorem c5_rates_nonzero (data : List CurrenciesModel) (c : String) (r : ℚ)
    (h : objLookup (fetchPrices data).1 c = some r) : r ≠ 0 := by
  unfold fetchPrices at h
  rw [foldl_fetchStep_fst] at h
  refine lastRateAux_ne_zero (removeDuplicates data) _ c ?_ r h
  intro p hp
  simp [objLookup] at hp

/-- C5 (witness): the nonzero guarantee evaluated at a concrete table. -/
theorem c5_witness :
    objLookup (fetchPrices [⟨"A", "d1", some 2⟩]).1 "A" = some 2 ∧ (2 : ℚ) ≠ 0 :=
  ⟨by decide, c5_rates_nonzero [⟨"A", "d1", some 2⟩] "A" 2 (by decide)⟩

/-- C6 (counterexample): currency `A` survives deduplication under two
distinct dates with valid prices and receives TWO CurrencyMeta entries — not
exactly one entry per surviving currency. -/
theorem c6_counterexample :
    (fetchPrices [⟨"A", "d1", some 1⟩, ⟨"A", "d2", some 5⟩]).2.map
        CurrencyMeta.currency = ["A", "A"] ∧
    ¬ ((fetchPrices [⟨"A", "d1", some 1⟩, ⟨"A", "d2", some 5⟩]).2.map
        CurrencyMeta.currency).Nodup := by
  refine ⟨by decide, by decide⟩

/-- C6 (amended): the CurrencyMeta list has exactly one entry per
DEDUPLICATED OBSERVATION with a truthy price, in deduplication order (a
currency appearing under several dates yields several entries), and the SET
of its currencies coincides with the rate table's keys. -/
theorem c6_meta_entries (data : List CurrenciesModel) :
    (fetchPrices data).2.map CurrencyMeta.currency =
      ((removeDuplicates data).filter (fun o => obsValid o)).map
        CurrenciesModel.currency ∧
    ∀ c, (c ∈ (fetchPrices data).2.map CurrencyMeta.currency ↔
      objLookup (fetchPrices data).1 c ≠ none) := by
  have hsnd : (fetchPrices data).2 =
      ((removeDuplicates data).filter (fun o => obsValid o)).map
        (fun o => ⟨o.currency, iconUrlOf o.currency⟩) := by
    unfold fetchPrices
    rw [foldl_fetchStep_snd]
    rfl
  constructor
  · rw [hsnd, List.map_map]
    rfl
  · intro c
    have hfst : objLookup (fetchPrices data).1 c =
        lastRateAux none (removeDuplicates data) c := by
      unfold fetchPrices
      rw [foldl_fetchStep_fst]
      rfl
    rw [hsnd, List.map_map, hfst, Ne, ← Ne, lastRateAux_ne_none_iff]
    simp only [List.mem_map, List.mem_filter, Function.comp_apply, ne_eq,
      not_false_eq_true, or_false]
    constructor
    · rintro ⟨o, ⟨ho, hv⟩, hc⟩
      exact Or.inl ⟨o, ho, hc, hv⟩
    · rintro (⟨o, ho, hc, hv⟩ | hfalse)
      · exact ⟨o, ⟨ho, hv⟩, hc⟩
      · exact absurd trivial hfalse

/-- C6 (witness): the meta-list characterization evaluated at a concrete
input. -/
theorem c6_witness :
    ((fetchPrices [⟨"A", "d1", some 1⟩]).2.map CurrencyMeta.currency =
      ((removeDuplicates [⟨"A", "d1", some 1⟩]).filter (fun o => obsValid o)).map
        CurrenciesModel.currency) ∧
    ("A" ∈ (fetchPrices [⟨"A", "d1", some 1⟩]).2.map CurrencyMeta.currency ↔
      objLookup (fetchPrices [⟨"A", "d1", some 1⟩]).1 "A" ≠ none) :=
  ⟨(c6_meta_entries [⟨"A", "d1", some 1⟩]).1,
    (c6_meta_entries [⟨"A", "d1", some 1⟩]).2 "A"⟩

/-- C7 (counterexample): `"abc"` parses to `NaN`, both rates are valid and
nonzero, yet `convert` does NOT withhold the update: the guard of line 120
tests the raw string (truthy for `"abc"`), so the displayed result becomes
`"NaN"` instead of the previous value. -/
theorem c7_counterexample :
    parseFloatJ "abc" = none ∧
    convert [("A", 2), ("B", 4)] ⟨some "A", some "B", "abc"⟩ "prev" = "NaN" ∧
    "NaN" ≠ "prev" := by
  refine ⟨by decide, by decide, by decide⟩

/-- C7 (amended): an unparsable `fromAmount` does not by itself withhold the
update, because the policy tests the raw string rather than the parse: under
an unparsable amount the result is either kept (in particular always when
the string is empty) or — whenever all the guards pass, which a non-empty
unparsable string does — replaced by the string `"NaN"`. -/
theorem c7_nan_update (rates : RateTable) (req : ConversionRequest)
    (prev : String) (h : parseFloatJ req.fromAmount = none) :
    (convert rates req prev = "NaN" ∨ convert rates req prev = prev) ∧
    (req.fromAmount = "" → convert rates req prev = prev) ∧
    (updateFires rates req = true → convert rates req prev = "NaN") := by
  have hcand : candidate rates req = "NaN" := by
    have hc : candidate rates req =
        toFixedJ (jsDiv
          (jsMul (parseFloatJ req.fromAmount)
            (some ((objLookup rates (req.fromCurrency.getD "")).getD 0)))
          (objLookup rates (req.toCurrency.getD ""))) := rfl
    rw [hc, h]
    cases objLookup rates (req.toCurrency.getD "") <;> rfl
  rw [convert_eq_ite]
  by_cases hu : updateFires rates req = true
  · rw [if_pos hu]
    have hne : req.fromAmount ≠ "" := by
      have hu2 := hu
      simp only [updateFires, updCond, Bool.and_eq_true, bne_iff_ne, ne_eq] at hu2
      exact hu2.2.2
    exact ⟨Or.inl hcand, fun he => absurd he hne, fun _ => hcand⟩
  · rw [if_neg hu]
    exact ⟨Or.inr rfl, fun _ => rfl, fun h2 => absurd h2 hu⟩

/-- C7 (witness): the `"NaN"` update branch evaluated at the request with
amount `"abc"` against the table `{A: 2, B: 4}`. -/
theorem c7_witness :
    parseFloatJ "abc" = none ∧
    updateFires [("A", 2), ("B", 4)] ⟨some "A", some "B", "abc"⟩ = true ∧
    convert [("A", 2), ("B", 4)] ⟨some "A", some "B", "abc"⟩ "p" = "NaN" :=
  ⟨by decide, by decide,
    (c7_nan_update [("A", 2), ("B", 4)] ⟨some "A", some "B", "abc"⟩ "p"
      (by decide)).2.2 (by decide)⟩

end SwapForm

namespace SwapForm

attribute [local semireducible] Rat.mul Rat.inv Rat.add Rat.sub

/-- C8: every CurrencyMeta entry's icon URL ends with
`<resolved-ticker>.svg`, where the resolved ticker is taken from the override
table `mapIncorrectObj` when the currency is one of its keys and is the
currency symbol unchanged otherwise; in particular `"STEVMOS"` resolves to a
path ending `stEVMos.svg` and `"BTC"` (not overridden) to one ending
`BTC.svg`. -/
theorem c8_icon_resolution :
    (∀ (data : List CurrenciesModel) (m : CurrencyMeta),
      m ∈ (fetchPrices data).2 →
      ∃ pre, m.iconUrl = pre ++ (resolveIcon m.currency ++ ".svg")) ∧
    resolveIcon "STEVMOS" = "stEVMos" ∧
    resolveIcon "BTC" = "BTC" ∧
    (∃ pre, iconUrlOf "STEVMOS" = pre ++ "stEVMos.svg") ∧
    (∃ pre, iconUrlOf "BTC" = pre ++ "BTC.svg") := by
  refine ⟨?_, by decide, by decide,
    ⟨tokenIconsBase, by decide⟩, ⟨tokenIconsBase, by decide⟩⟩
  intro data m hm
  have hsnd : (fetchPrices data).2 =
      ((removeDuplicates data).filter (fun o => obsValid o)).map
        (fun o => ⟨o.currency, iconUrlOf o.currency⟩) := by
    unfold fetchPrices
    rw [foldl_fetchStep_snd]
    rfl
  rw [hsnd, List.mem_map] at hm
  obtain ⟨o, _, ho⟩ := hm
  refine ⟨tokenIconsBase, ?_⟩
  rw [← ho]
  show iconUrlOf o.currency = tokenIconsBase ++ (resolveIcon o.currency ++ ".svg")
  unfold iconUrlOf
  rw [String.append_assoc]

/-- C8 (witness): the suffix property applied to the metadata produced for a
concrete `BTC` observation. -/
theorem c8_witness :
    (⟨"BTC", iconUrlOf "BTC"⟩ : CurrencyMeta) ∈
      (fetchPrices [⟨"BTC", "d1", some 1⟩]).2 ∧
    ∃ pre, (⟨"BTC", iconUrlOf "BTC"⟩ : CurrencyMeta).iconUrl =
      pre ++ (resolveIcon (⟨"BTC", iconUrlOf "BTC"⟩ : CurrencyMeta).currency ++ ".svg") :=
  ⟨by decide, c8_icon_resolution.1 [⟨"BTC", "d1", some 1⟩] ⟨"BTC", iconUrlOf "BTC"⟩
    (by decide)⟩

/-- C9: the concatenated deduplication key identifies observations whose
(currency, date) pairs differ — `{currency: "A-B", date: "C"}` and
`{currency: "A", date: "B-C"}` share the key `"A-B-C"` — and for every such
pair with distinct currencies only the first observation is retained: the
second contributes neither a rate table entry nor a CurrencyMeta entry of
its own. -/
theorem c9_key_collision :
    obsKey ⟨"A-B", "C", some 1⟩ = obsKey ⟨"A", "B-C", some 2⟩ ∧
    (∀ (o1 o2 : CurrenciesModel), obsKey o1 = obsKey o2 →
      o1.currency ≠ o2.currency →
      removeDuplicates [o1, o2] = [o1] ∧
      objLookup (fetchPrices [o1, o2]).1 o2.currency = none ∧
      ∀ m, m ∈ (fetchPrices [o1, o2]).2 → m.currency ≠ o2.currency) := by
  refine ⟨by decide, ?_⟩
  intro o1 o2 hk hne
  have hdedup : removeDuplicates [o1, o2] = [o1] := by
    unfold removeDuplicates
    rw [dedupAux_cons, if_neg (by simp), dedupAux_cons, if_pos (by simp [hk])]
    rfl
  have hfetch : fetchPrices [o1, o2] = fetchStep ([], []) o1 := by
    unfold fetchPrices
    rw [hdedup]
    rfl
  refine ⟨hdedup, ?_, ?_⟩
  · rw [hfetch]
    cases hp : o1.price with
    | none => simp [fetchStep, hp, objLookup]
    | some p =>
      by_cases hz : p = 0
      · subst hz; simp [fetchStep, hp, objLookup]
      · simp [fetchStep, hp, hz, setRate, objLookup, Ne.symm hne]
  · rw [hfetch]
    intro m hm
    cases hp : o1.price with
    | none =>
      simp [fetchStep, hp] at hm
    | some p =>
      by_cases hz : p = 0
      · subst hz; simp [fetchStep, hp] at hm
      · simp [fetchStep, hp, hz] at hm
        rw [hm]
        exact hne

/-- C9 (witness): the collision pair `("A-B", "C")` / `("A", "B-C")`
evaluated concretely: only the first observation is retained. -/
theorem c9_witness :
    obsKey ⟨"A-B", "C", some 1⟩ = obsKey ⟨"A", "B-C", some 2⟩ ∧
    (⟨"A-B", "C", some 1⟩ : CurrenciesModel).currency ≠
      (⟨"A", "B-C", some 2⟩ : CurrenciesModel).currency ∧
    removeDuplicates [⟨"A-B", "C", some 1⟩, ⟨"A", "B-C", some 2⟩] =
      [⟨"A-B", "C", some 1⟩] :=
  ⟨by decide, by decide,
    (c9_key_collision.2 ⟨"A-B", "C", some 1⟩ ⟨"A", "B-C", some 2⟩
      (by decide) (by decide)).1⟩

/-- C10: `handleInputChange` leaves every form-state field other than the
edited field and `toAmount` unchanged, the edited field always takes its new
value, and whenever the update policy withholds the conversion `toAmount`
keeps its previous value. -/
theorem c10_frame (prices : RateTable) (fd : FormData) :
    (∀ v, (handleInputChange prices fd (.updFromCurrency v)).fromCurrency = v ∧
      (handleInputChange prices fd (.updFromCurrency v)).toCurrency = fd.toCurrency ∧
      (handleInputChange prices fd (.updFromCurrency v)).fromAmount = fd.fromAmount) ∧
    (∀ v, (handleInputChange prices fd (.updToCurrency v)).toCurrency = v ∧
      (handleInputChange prices fd (.updToCurrency v)).fromCurrency = fd.fromCurrency ∧
      (handleInputChange prices fd (.updToCurrency v)).fromAmount = fd.fromAmount) ∧
    (∀ v, (handleInputChange prices fd (.updFromAmount v)).fromAmount = v ∧
      (handleInputChange prices fd (.updFromAmount v)).fromCurrency = fd.fromCurrency ∧
      (handleInputChange prices fd (.updFromAmount v)).toCurrency = fd.toCurrency) ∧
    (∀ u, updateFires prices (requestOf (applyField fd u)) = false →
      (handleInputChange prices fd u).toAmount = fd.toAmount) := by
  refine ⟨fun v => ⟨rfl, rfl, rfl⟩, fun v => ⟨rfl, rfl, rfl⟩,
    fun v => ⟨rfl, rfl, rfl⟩, ?_⟩
  intro u hu
  show convert prices (requestOf (applyField fd u)) (applyField fd u).toAmount
    = fd.toAmount
  rw [convert_eq_ite, hu]
  simp only [Bool.false_eq_true, if_false]
  cases u <;> rfl

/-- C10 (witness): a withheld update (no currencies selected) leaves
`toAmount` at its previous value while the edited field changed. -/
theorem c10_witness :
    updateFires [] (requestOf (applyField ⟨none, none, "", ""⟩ (.updFromAmount "1")))
      = false ∧
    (handleInputChange [] ⟨none, none, "", ""⟩ (.updFromAmount "1")).toAmount = "" :=
  ⟨by decide,
    (c10_frame [] ⟨none, none, "", ""⟩).2.2.2 (.updFromAmount "1") (by decide)⟩

end SwapForm
